import Mathlib

/-!
Verification of the pair-trading z-score engine (live strategy `PairZScore.py`
and backtest simulator `BTPairZScore.py`).

The embedding models prices, spreads and cash as real numbers (the source uses
Python floats / numpy arrays), share positions as integers (Python ints), and
the per-pair rolling spread buffer as a list (newest element last), mirroring
`collections.deque(maxlen=lookback_window)`.
-/

namespace PairTrading

/-- Per-pair mutable state of the backtest engine, mirroring `BTPairState`
(`BTPairZScore.py`, lines 9-17): symbols, the rolling spread deque,
the `in_position` flag and the two signed leg positions. -/
structure BTPairState where
  symbol_a : String
  symbol_b : String
  spreads : List ℝ
  in_position : Bool
  pos_a : ℤ
  pos_b : ℤ

/-- Whole-engine state of `BTPairZScore` (lines 19-44): configuration
(`lookback_window`, `z_entry`, `z_exit`), the list of pair states, the shared
cash pool and the equity history (timestamp code paired with equity). -/
structure BTState where
  lookback_window : ℕ
  z_entry : ℝ
  z_exit : ℝ
  pairs_state : List BTPairState
  bt_cash : ℝ
  bt_pnl_history : List (Option ℤ × ℝ)

/-- `_update_spread` (line 46-47): `state.spreads.append(spread)` on a deque
with `maxlen = W`; when the buffer already holds `W` elements the oldest
(leftmost) element is evicted. -/
def update_spread (W : ℕ) (xs : List ℝ) (x : ℝ) : List ℝ :=
  let ys := xs ++ [x]
  ys.drop (ys.length - W)

noncomputable section

/-- `arr.mean()` of numpy for the window array. -/
def win_mean (xs : List ℝ) : ℝ := xs.sum / (xs.length : ℝ)

/-- `arr.std(ddof=1)` of numpy for the window array:
`sqrt(sum((x - mean)^2) / (n - 1))`. -/
def win_std (xs : List ℝ) : ℝ :=
  Real.sqrt ((xs.map fun t => (t - win_mean xs) ^ 2).sum / ((xs.length : ℝ) - 1))

/-- `_compute_zscore` (`BTPairZScore.py` lines 49-58, identical in
`PairZScore.py` lines 63-75): returns `(None, None, None)` while the window is
short of `W`, `(None, mean, std)` when the window standard deviation is zero,
and `((spread - mean)/std, mean, std)` otherwise. -/
def compute_zscore (W : ℕ) (xs : List ℝ) (spread : ℝ) :
    Option ℝ × Option ℝ × Option ℝ :=
  if xs.length < W then (none, none, none)
  else if win_std xs = 0 then (none, some (win_mean xs), some (win_std xs))
  else (some ((spread - win_mean xs) / win_std xs), some (win_mean xs), some (win_std xs))

/-- `_bt_position_sizes` (lines 60-66): `notional_each = equity / 10.0`;
per leg `qty = max(int(notional_each // price), 1)` (floor division, at least
one share). -/
def bt_position_sizes (price_a price_b current_equity : ℝ) : ℤ × ℤ :=
  let notional_each := current_equity / 10
  (max ⌊notional_each / price_a⌋ 1, max ⌊notional_each / price_b⌋ 1)

/-- `_bt_enter_long_spread` (lines 68-82): buy `qty_a` of A (cash down), sell
`qty_b` of B (cash up), set `in_position`. Returns the new cash and pair
state. -/
def bt_enter_long_spread (pa pb current_equity cash : ℝ) (st : BTPairState) :
    ℝ × BTPairState :=
  let q := bt_position_sizes pa pb current_equity
  (cash - (q.1 : ℝ) * pa + (q.2 : ℝ) * pb,
   { st with pos_a := st.pos_a + q.1, pos_b := st.pos_b - q.2, in_position := true })

/-- `_bt_enter_short_spread` (lines 84-98): sell `qty_a` of A (cash up), buy
`qty_b` of B (cash down), set `in_position`. -/
def bt_enter_short_spread (pa pb current_equity cash : ℝ) (st : BTPairState) :
    ℝ × BTPairState :=
  let q := bt_position_sizes pa pb current_equity
  (cash + (q.1 : ℝ) * pa - (q.2 : ℝ) * pb,
   { st with pos_a := st.pos_a - q.1, pos_b := st.pos_b + q.2, in_position := true })

/-- `_bt_close_positions` (lines 100-109): realize both legs into cash at the
current prices and zero the positions. -/
def bt_close_positions (pa pb cash : ℝ) (st : BTPairState) : ℝ × BTPairState :=
  (cash + (st.pos_a : ℝ) * pa + (st.pos_b : ℝ) * pb,
   { st with pos_a := 0, pos_b := 0, in_position := false })

/-- `_get_total_equity` (lines 111-119): cash plus the value of every pair
whose two prices are present and truthy (Python `if pa and pb` treats both
`None` and `0.0` as false). -/
def get_total_equity (prices : String → Option ℝ) (st : BTState) : ℝ :=
  st.bt_cash +
    (st.pairs_state.map fun p =>
      match prices p.symbol_a, prices p.symbol_b with
      | some pa, some pb =>
          if pa ≠ 0 ∧ pb ≠ 0 then (p.pos_a : ℝ) * pa + (p.pos_b : ℝ) * pb else 0
      | _, _ => 0).sum

/-- The body of the per-pair loop of `step_backtest` (lines 125-145): skip the
pair when a leg price is missing, append the spread, compute the z-score, and
run the entry/exit state machine. Returns the new cash and pair state. -/
def step_pair (W : ℕ) (z_entry z_exit : ℝ) (price_a price_b : Option ℝ)
    (current_equity cash : ℝ) (st : BTPairState) : ℝ × BTPairState :=
  match price_a, price_b with
  | some pa, some pb =>
      let spread := pa - pb
      let st1 : BTPairState := { st with spreads := update_spread W st.spreads spread }
      match (compute_zscore W st1.spreads spread).1 with
      | none => (cash, st1)
      | some z =>
          if st1.in_position = false then
            if z > z_entry then bt_enter_short_spread pa pb current_equity cash st1
            else if z < -z_entry then bt_enter_long_spread pa pb current_equity cash st1
            else (cash, st1)
          else
            if |z| < z_exit then bt_close_positions pa pb cash st1
            else (cash, st1)
  | _, _ => (cash, st)

/-- Sequentially folds a cash-threading pair operation over the pair list,
as the source's `for state in self.pairs_state` loops do while mutating
`self.bt_cash` in place. -/
def thread {α : Type} (f : ℝ → α → ℝ × α) : ℝ → List α → ℝ × List α
  | cash, [] => (cash, [])
  | cash, x :: xs =>
      let r := f cash x
      let rest := thread f r.1 xs
      (rest.1, r.2 :: rest.2)

/-- `step_backtest` (lines 121-150): compute the step's equity once, run the
per-pair loop threading the shared cash pool, then record the recomputed
equity in the history. -/
def step_backtest (prices : String → Option ℝ) (ts : Option ℤ) (st : BTState) : BTState :=
  let current_equity := get_total_equity prices st
  let r := thread
    (fun c p => step_pair st.lookback_window st.z_entry st.z_exit
      (prices p.symbol_a) (prices p.symbol_b) current_equity c p)
    st.bt_cash st.pairs_state
  let st1 := { st with bt_cash := r.1, pairs_state := r.2 }
  { st1 with bt_pnl_history := st1.bt_pnl_history ++ [(ts, get_total_equity prices st1)] }

/-- One iteration of the end-of-session force-close loop (`backtest`,
lines 196-201): a pair still `in_position` is closed at the last prices,
provided both prices are present and truthy (`if pa and pb`). -/
def close_pair_forced (prices : String → Option ℝ) (cash : ℝ) (st : BTPairState) :
    ℝ × BTPairState :=
  if st.in_position then
    match prices st.symbol_a, prices st.symbol_b with
    | some pa, some pb =>
        if pa ≠ 0 ∧ pb ≠ 0 then bt_close_positions pa pb cash st else (cash, st)
    | _, _ => (cash, st)
  else (cash, st)

/-- The whole end-of-session force-close pass over all pairs. -/
def force_close_all (prices : String → Option ℝ) (st : BTState) : BTState :=
  let r := thread (close_pair_forced prices) st.bt_cash st.pairs_state
  { st with bt_cash := r.1, pairs_state := r.2 }

/-- Sample mean, written from the spec's words (section 4.1). -/
def sampleMean (l : List ℝ) : ℝ := l.sum / (l.length : ℝ)

/-- Sample standard deviation with Bessel's correction, written from the
spec's words: divide the summed squared deviations by `n − 1`, not `n`, and
take the square root. -/
def sampleStdBessel (l : List ℝ) : ℝ :=
  Real.sqrt ((l.map fun t => (t - sampleMean l) ^ 2).sum / ((l.length : ℝ) - 1))

end

/-- Window contents after recording one spread, written from the spec's words:
append the new value, evicting the oldest (front) element if the buffer is
already at capacity `W`. -/
def specWindow (W : ℕ) (xs : List ℝ) (x : ℝ) : List ℝ :=
  if xs.length < W then xs ++ [x] else xs.drop 1 ++ [x]

/-- The invariant claimed for backtest pair states: a pair that is not in a
position holds zero shares on both legs. -/
def pairInv (p : BTPairState) : Prop :=
  p.in_position = false → p.pos_a = 0 ∧ p.pos_b = 0

/-- Construction of one `BTPairState` (`BTPairState.__init__`, lines 9-17):
`deque(maxlen=lookback_window)` raises `ValueError` exactly when the requested
`maxlen` is negative; there is no other validation of the window. The same
`deque(maxlen=...)` call is the only window check in
`PairZScoreStrategy.__init__` as well. -/
def mk_bt_pair_state (a b : String) (lookback_window : ℤ) : Except String BTPairState :=
  if lookback_window < 0 then Except.error "maxlen must be non-negative"
  else Except.ok
    { symbol_a := a, symbol_b := b, spreads := [], in_position := false,
      pos_a := 0, pos_b := 0 }

/-- The list comprehension `[BTPairState(a, b, lookback_window) for (a, b) in
pairs]` of `BTPairZScore.__init__`: the first failing `deque` construction
aborts the whole constructor. -/
def mk_pair_states (pairs : List (String × String)) (lookback_window : ℤ) :
    Except String (List BTPairState) :=
  match pairs with
  | [] => Except.ok []
  | p :: rest =>
      match mk_bt_pair_state p.1 p.2 lookback_window with
      | Except.error e => Except.error e
      | Except.ok s =>
          match mk_pair_states rest lookback_window with
          | Except.error e => Except.error e
          | Except.ok ss => Except.ok (s :: ss)

/-- `BTPairZScore.__init__` (lines 19-44): builds one `BTPairState` per
configured pair (the only step that can fail) and records the configuration
and the initial cash pool. -/
def mkBTPairZScore (pairs : List (String × String)) (lookback_window : ℤ)
    (z_entry z_exit initial_cash : ℝ) : Except String BTState :=
  (mk_pair_states pairs lookback_window).map fun ps =>
    { lookback_window := lookback_window.toNat, z_entry := z_entry, z_exit := z_exit,
      pairs_state := ps, bt_cash := initial_cash, bt_pnl_history := [] }

/-- States of the backtest engine reachable from a successful construction by
signal steps and end-of-session forced liquidations. -/
inductive Reachable : BTState → Prop
  | init (pairs : List (String × String)) (W : ℤ) (ze zx c0 : ℝ) (st : BTState) :
      mkBTPairZScore pairs W ze zx c0 = Except.ok st → Reachable st
  | step (prices : String → Option ℝ) (ts : Option ℤ) (st : BTState) :
      Reachable st → Reachable (step_backtest prices ts st)
  | forced (prices : String → Option ℝ) (st : BTState) :
      Reachable st → Reachable (force_close_all prices st)

/-! ### Helper lemmas -/

lemma win_mean_replicate (W : ℕ) (c : ℝ) (hW : W ≠ 0) :
    win_mean (List.replicate W c) = c := by
  have hcast : (W : ℝ) ≠ 0 := Nat.cast_ne_zero.mpr hW
  simp [win_mean, List.sum_replicate, nsmul_eq_mul]
  field_simp

lemma win_std_replicate (W : ℕ) (c : ℝ) (hW : W ≠ 0) :
    win_std (List.replicate W c) = 0 := by
  simp [win_std, List.map_replicate, win_mean_replicate W c hW, List.sum_replicate]

lemma win_mean_sample : win_mean [10, 12, 10, 8, 10] = 10 := by
  norm_num [win_mean, List.sum_cons, List.sum_nil]

lemma win_std_sample : win_std [10, 12, 10, 8, 10] = Real.sqrt 2 := by
  unfold win_std
  simp only [win_mean_sample]
  norm_num [List.map_cons, List.map_nil, List.sum_cons, List.sum_nil]

lemma compute_zscore_sample :
    compute_zscore 5 [10, 12, 10, 8, 10] 13 =
      (some (3 / Real.sqrt 2), some 10, some (Real.sqrt 2)) := by
  have hstd : win_std [10, 12, 10, 8, 10] ≠ 0 := by
    rw [win_std_sample]
    positivity
  unfold compute_zscore
  rw [if_neg (by norm_num), if_neg hstd, win_std_sample, win_mean_sample]
  norm_num

/-! ### C6: insufficient data -/

/-- C6: while fewer than `W` spread samples have ever been recorded (counting
the one just appended by this update), the append-then-score operation
returns `(none, none, none)`, whatever the spread values are. -/
theorem insufficient_data_no_signal (W : ℕ) (xs : List ℝ) (x : ℝ)
    (h : xs.length + 1 < W) :
    compute_zscore W (update_spread W xs x) x = (none, none, none) := by
  have hlen : (update_spread W xs x).length < W := by
    simp [update_spread]
    omega
  simp [compute_zscore, hlen]

/-- C6 witness: a window of one sample with `W = 5` yields no statistics. -/
theorem insufficient_data_no_signal_witness :
    ([] : List ℝ).length + 1 < 5 ∧
      compute_zscore 5 (update_spread 5 [] 0) 0 = (none, none, none) :=
  ⟨by norm_num, insufficient_data_no_signal 5 [] 0 (by norm_num)⟩

/-! ### C7: zero variance -/

/-- C7: a full window of `W` identical values (with a valid configuration
`W ≥ 2`) has sample standard deviation exactly `0`, and the scorer returns
`(none, mean, 0)`: the z-score is never formed, so no division by zero
occurs. -/
theorem zero_variance_no_signal (W : ℕ) (c s : ℝ) (hW : 2 ≤ W) :
    win_std (List.replicate W c) = 0 ∧
    compute_zscore W (List.replicate W c) s = (none, some c, some 0) := by
  have h0 : W ≠ 0 := by omega
  have hm := win_mean_replicate W c h0
  have hs := win_std_replicate W c h0
  refine ⟨hs, ?_⟩
  simp [compute_zscore, hs, hm]

/-- C7 witness: five identical spreads of `50` with `W = 5`, as in the
repository's own unit test. -/
theorem zero_variance_no_signal_witness :
    2 ≤ 5 ∧
      (win_std (List.replicate 5 (50 : ℝ)) = 0 ∧
        compute_zscore 5 (List.replicate 5 (50 : ℝ)) 50 = (none, some 50, some 0)) :=
  ⟨by norm_num, zero_variance_no_signal 5 50 50 (by norm_num)⟩

/-! ### C2: the fixed sample [10,12,10,8,10] -/

/-- C2 counterexample: on the fixed sample `[10,12,10,8,10]` with `W = 5` the
code's sample standard deviation is `√2 ≈ 1.4142`, not approximately `1.5811`,
and the z-score for a new spread of `13` is `3/√2 ≈ 2.1213`, not approximately
`1.897`. -/
theorem fixed_sample_zscore_cex :
    (compute_zscore 5 [10, 12, 10, 8, 10] 13).2.2 = some (Real.sqrt 2) ∧
    ¬ |Real.sqrt 2 - 1.5811| < 0.1 ∧
    (compute_zscore 5 [10, 12, 10, 8, 10] 13).1 = some (3 / Real.sqrt 2) ∧
    ¬ |3 / Real.sqrt 2 - 1.897| < 0.2 := by
  have hsq := Real.sq_sqrt (show (0 : ℝ) ≤ 2 by norm_num)
  have hnn := Real.sqrt_nonneg 2
  have hlt : Real.sqrt 2 < 1.45 := by nlinarith
  have hpos : 0 < Real.sqrt 2 := Real.sqrt_pos.mpr (by norm_num)
  have hz : (2.1 : ℝ) < 3 / Real.sqrt 2 := by
    rw [lt_div_iff₀ hpos]
    nlinarith
  refine ⟨by rw [compute_zscore_sample], ?_, by rw [compute_zscore_sample], ?_⟩
  · have habs : (1.5811 : ℝ) - Real.sqrt 2 ≤ |Real.sqrt 2 - 1.5811| := by
      rw [abs_sub_comm]
      exact le_abs_self _
    rw [not_lt]
    nlinarith
  · have habs : 3 / Real.sqrt 2 - 1.897 ≤ |3 / Real.sqrt 2 - 1.897| := le_abs_self _
    rw [not_lt]
    nlinarith

/-- C2 amended: for the fixed sample `[10,12,10,8,10]` with `W = 5` the mean
is exactly `10`, the sample standard deviation (ddof = 1) is `√2 ≈ 1.4142`,
and the z-score for a new spread of `13` is `(13 − 10)/√2 = 3/√2 ≈ 2.1213`. -/
theorem fixed_sample_zscore_amended :
    compute_zscore 5 [10, 12, 10, 8, 10] 13 =
      (some (3 / Real.sqrt 2), some 10, some (Real.sqrt 2)) ∧
    |Real.sqrt 2 - 1.4142| < 0.001 ∧
    |3 / Real.sqrt 2 - 2.1213| < 0.001 := by
  have hsq := Real.sq_sqrt (show (0 : ℝ) ≤ 2 by norm_num)
  have hnn := Real.sqrt_nonneg 2
  have hlo : (1.4142 : ℝ) < Real.sqrt 2 := by nlinarith
  have hhi : Real.sqrt 2 < 1.4143 := by nlinarith
  have hpos : 0 < Real.sqrt 2 := Real.sqrt_pos.mpr (by norm_num)
  refine ⟨compute_zscore_sample, ?_, ?_⟩
  · rw [abs_lt]
    constructor <;> nlinarith
  · have hzlo : (2.1203 : ℝ) < 3 / Real.sqrt 2 := by
      rw [lt_div_iff₀ hpos]
      nlinarith
    have hzhi : 3 / Real.sqrt 2 < 2.1223 := by
      rw [div_lt_iff₀ hpos]
      nlinarith
    rw [abs_lt]
    constructor <;> nlinarith

/-! ### C3: construction-time validation -/

/-- C3 result: constructing the strategy with `lookback_window = 0` — a
non-positive window — succeeds (Python's `deque(maxlen=0)` is legal and the
constructors perform no further validation), while a negative window is the
only case rejected, by `deque`'s own `maxlen` check. The spec requires every
non-positive window to be rejected at construction time. -/
theorem construction_zero_window_accepted :
    (mkBTPairZScore [("GOOGL", "GOOG")] 0 2 0.5 200000).isOk = true ∧
    (mkBTPairZScore [("GOOGL", "GOOG")] (-1) 2 0.5 200000).isOk = false := by
  constructor <;> rfl

/-! ### C8: full-window z-score formula -/

lemma win_mean_eq_sampleMean (l : List ℝ) : win_mean l = sampleMean l := rfl

lemma win_std_eq_sampleStdBessel (l : List ℝ) : win_std l = sampleStdBessel l := rfl

/-- C8: on a full window with nonzero standard deviation, the updated window
is exactly the FIFO-evicted append of the current spread, and the returned
z-score is `(spread − mean) / std` with the sample mean and the Bessel-corrected
(`n − 1`) sample standard deviation of that updated window. -/
theorem full_window_zscore_formula (W : ℕ) (xs : List ℝ) (x : ℝ)
    (hW : 2 ≤ W) (hlen : xs.length ≤ W) (hfull : W ≤ xs.length + 1)
    (hstd : sampleStdBessel (specWindow W xs x) ≠ 0) :
    update_spread W xs x = specWindow W xs x ∧
    compute_zscore W (update_spread W xs x) x =
      (some ((x - sampleMean (specWindow W xs x)) / sampleStdBessel (specWindow W xs x)),
        some (sampleMean (specWindow W xs x)),
        some (sampleStdBessel (specWindow W xs x))) := by
  have hwin : update_spread W xs x = specWindow W xs x := by
    unfold update_spread specWindow
    simp only [List.length_append, List.length_singleton]
    by_cases hc : xs.length < W
    · rw [if_pos hc]
      have hz : xs.length + 1 - W = 0 := by omega
      rw [hz, List.drop_zero]
    · rw [if_neg hc]
      have h1 : xs.length + 1 - W = 1 := by omega
      rw [h1, List.drop_append_of_le_length (by omega)]
  have hnlt : ¬ (specWindow W xs x).length < W := by
    unfold specWindow
    by_cases hc : xs.length < W
    · rw [if_pos hc]
      simp only [List.length_append, List.length_singleton]
      omega
    · rw [if_neg hc]
      simp only [List.length_append, List.length_singleton, List.length_drop]
      omega
  refine ⟨hwin, ?_⟩
  rw [hwin]
  unfold compute_zscore
  rw [if_neg hnlt, win_std_eq_sampleStdBessel, win_mean_eq_sampleMean, if_neg hstd]

lemma win_mean_012 : win_mean [0, 1, 2] = 1 := by
  norm_num [win_mean, List.sum_cons, List.sum_nil]

lemma win_std_012 : win_std [0, 1, 2] = 1 := by
  unfold win_std
  simp only [win_mean_012]
  norm_num [List.map_cons, List.map_nil, List.sum_cons, List.sum_nil, Real.sqrt_one]

lemma specWindow_012 : specWindow 3 [0, 1] 2 = [0, 1, 2] := by
  norm_num [specWindow]

/-- C8 witness: window `[0, 1]` at `W = 3` with new spread `2` gives the full
window `[0, 1, 2]`, mean `1`, Bessel std `1` and z-score `1`. -/
theorem full_window_zscore_formula_witness :
    (2 ≤ 3 ∧ ([0, 1] : List ℝ).length ≤ 3 ∧ 3 ≤ ([0, 1] : List ℝ).length + 1 ∧
      sampleStdBessel (specWindow 3 [0, 1] 2) ≠ 0) ∧
    compute_zscore 3 (update_spread 3 [0, 1] 2) 2 =
      (some ((2 - sampleMean (specWindow 3 [0, 1] 2)) / sampleStdBessel (specWindow 3 [0, 1] 2)),
        some (sampleMean (specWindow 3 [0, 1] 2)),
        some (sampleStdBessel (specWindow 3 [0, 1] 2))) := by
  have hstd : sampleStdBessel (specWindow 3 [0, 1] 2) ≠ 0 := by
    rw [specWindow_012, ← win_std_eq_sampleStdBessel, win_std_012]
    norm_num
  exact ⟨⟨by norm_num, by norm_num, by norm_num, hstd⟩,
    (full_window_zscore_formula 3 [0, 1] 2 (by norm_num) (by norm_num) (by norm_num) hstd).2⟩

/-! ### C1: the entry/exit state machine -/

lemma one_le_sizes_fst (pa pb E : ℝ) : 1 ≤ (bt_position_sizes pa pb E).1 :=
  le_max_right _ _

lemma one_le_sizes_snd (pa pb E : ℝ) : 1 ≤ (bt_position_sizes pa pb E).2 :=
  le_max_right _ _

/-- C1: with a valid z-score `z` for the updated window, a FLAT pair opens in
short-spread orientation (leg A sold: `pos_a` strictly decreases) exactly when
`z > z_entry`, opens in long-spread orientation (leg A bought: `pos_a`
strictly increases) exactly when `z < −z_entry`, and an OPEN pair closes to
FLAT exactly when `|z| < z_exit`; all comparisons strict, so ties trigger no
transition. -/
theorem entry_exit_state_machine (W : ℕ) (ze zx pa pb E C z : ℝ) (st : BTPairState)
    (hze : 0 < ze)
    (hz : (compute_zscore W (update_spread W st.spreads (pa - pb)) (pa - pb)).1 = some z) :
    (st.in_position = false →
      (((step_pair W ze zx (some pa) (some pb) E C st).2.in_position = true ∧
          (step_pair W ze zx (some pa) (some pb) E C st).2.pos_a < st.pos_a) ↔ z > ze) ∧
      (((step_pair W ze zx (some pa) (some pb) E C st).2.in_position = true ∧
          st.pos_a < (step_pair W ze zx (some pa) (some pb) E C st).2.pos_a) ↔ z < -ze) ∧
      ((step_pair W ze zx (some pa) (some pb) E C st).2.in_position = true ↔
        (z > ze ∨ z < -ze))) ∧
    (st.in_position = true →
      (((step_pair W ze zx (some pa) (some pb) E C st).2.in_position = false ∧
          (step_pair W ze zx (some pa) (some pb) E C st).2.pos_a = 0 ∧
          (step_pair W ze zx (some pa) (some pb) E C st).2.pos_b = 0) ↔ |z| < zx) ∧
      ((step_pair W ze zx (some pa) (some pb) E C st).2.in_position = false ↔
        |z| < zx)) := by
  have hq1 := one_le_sizes_fst pa pb E
  have hq2 := one_le_sizes_snd pa pb E
  constructor
  · intro hflat
    by_cases h1 : z > ze
    · refine ⟨?_, ?_, ?_⟩
      · simp [step_pair, hz, hflat, h1, bt_enter_short_spread]
        omega
      · have hzneg : ¬ z < -ze := by linarith
        simp [step_pair, hz, hflat, h1, hzneg, bt_enter_short_spread]
        omega
      · simp [step_pair, hz, hflat, h1, bt_enter_short_spread]
    · by_cases h2 : z < -ze
      · refine ⟨?_, ?_, ?_⟩
        · simp [step_pair, hz, hflat, h1, h2, bt_enter_long_spread]
          omega
        · simp [step_pair, hz, hflat, h1, h2, bt_enter_long_spread]
          omega
        · simp [step_pair, hz, hflat, h1, h2, bt_enter_long_spread]
      · refine ⟨?_, ?_, ?_⟩
        · simp [step_pair, hz, hflat, h1, h2]
        · simp [step_pair, hz, hflat, h1, h2]
        · simp [step_pair, hz, hflat, h1, h2]
  · intro hopen
    by_cases hx : |z| < zx
    · refine ⟨?_, ?_⟩
      · simp [step_pair, hz, hopen, hx, bt_close_positions]
      · simp [step_pair, hz, hopen, hx, bt_close_positions]
    · refine ⟨?_, ?_⟩
      · simp [step_pair, hz, hopen, hx]
      · simp [step_pair, hz, hopen, hx]

lemma update_spread_012 : update_spread 3 [0, 1] 2 = [0, 1, 2] := by
  norm_num [update_spread]

lemma compute_zscore_012 : compute_zscore 3 [0, 1, 2] 2 = (some 1, some 1, some 1) := by
  unfold compute_zscore
  rw [win_std_012, win_mean_012]
  norm_num

/-- C1 witness: pair state with window `[0, 1]` at `W = 3`, prices `3` and
`1`, hence spread `2`, z-score `1`, entry threshold `2`: no transition fires
and every equivalence of the state machine holds at this input. -/
theorem entry_exit_state_machine_witness :
    ((0 : ℝ) < 2 ∧
      (compute_zscore 3 (update_spread 3
        (⟨"A", "B", [0, 1], false, 0, 0⟩ : BTPairState).spreads ((3 : ℝ) - 1))
        ((3 : ℝ) - 1)).1 = some 1) ∧
    ((((step_pair 3 2 0.5 (some 3) (some 1) 100 50
          ⟨"A", "B", [0, 1], false, 0, 0⟩).2.in_position = true ∧
        (step_pair 3 2 0.5 (some 3) (some 1) 100 50
          ⟨"A", "B", [0, 1], false, 0, 0⟩).2.pos_a <
          (⟨"A", "B", [0, 1], false, 0, 0⟩ : BTPairState).pos_a) ↔ (1 : ℝ) > 2) ∧
      (((step_pair 3 2 0.5 (some 3) (some 1) 100 50
          ⟨"A", "B", [0, 1], false, 0, 0⟩).2.in_position = true ∧
        (⟨"A", "B", [0, 1], false, 0, 0⟩ : BTPairState).pos_a <
          (step_pair 3 2 0.5 (some 3) (some 1) 100 50
            ⟨"A", "B", [0, 1], false, 0, 0⟩).2.pos_a) ↔ (1 : ℝ) < -2) ∧
      ((step_pair 3 2 0.5 (some 3) (some 1) 100 50
          ⟨"A", "B", [0, 1], false, 0, 0⟩).2.in_position = true ↔
        ((1 : ℝ) > 2 ∨ (1 : ℝ) < -2))) := by
  have hz : (compute_zscore 3 (update_spread 3
      (⟨"A", "B", [0, 1], false, 0, 0⟩ : BTPairState).spreads ((3 : ℝ) - 1))
      ((3 : ℝ) - 1)).1 = some 1 := by
    have h3 : ((3 : ℝ) - 1) = 2 := by norm_num
    show (compute_zscore 3 (update_spread 3 [0, 1] ((3 : ℝ) - 1)) ((3 : ℝ) - 1)).1 = some 1
    rw [h3, update_spread_012, compute_zscore_012]
  exact ⟨⟨by norm_num, hz⟩,
    (entry_exit_state_machine 3 2 0.5 3 1 100 50 1
      ⟨"A", "B", [0, 1], false, 0, 0⟩ (by norm_num) hz).1 rfl⟩

/-! ### C9: no-signal and missing-price frame property -/

/-- C9: when a leg price is missing, or the z-score of the updated window is
`none` (insufficient data or zero variance), the pair's evaluation changes
neither `in_position`, nor the leg positions, nor the cash pool: positions are
held, not force-closed. -/
theorem no_signal_frame_property (W : ℕ) (ze zx E C : ℝ) (pa? pb? : Option ℝ)
    (st : BTPairState)
    (h : pa? = none ∨ pb? = none ∨
      ∀ pa pb, pa? = some pa → pb? = some pb →
        (compute_zscore W (update_spread W st.spreads (pa - pb)) (pa - pb)).1 = none) :
    (step_pair W ze zx pa? pb? E C st).1 = C ∧
    (step_pair W ze zx pa? pb? E C st).2.in_position = st.in_position ∧
    (step_pair W ze zx pa? pb? E C st).2.pos_a = st.pos_a ∧
    (step_pair W ze zx pa? pb? E C st).2.pos_b = st.pos_b := by
  cases pa? with
  | none => simp [step_pair]
  | some pa =>
      cases pb? with
      | none => simp [step_pair]
      | some pb =>
          have hz : (compute_zscore W (update_spread W st.spreads (pa - pb))
              (pa - pb)).1 = none := by
            rcases h with h | h | h
            · exact absurd h (by simp)
            · exact absurd h (by simp)
            · exact h pa pb rfl rfl
          simp [step_pair, hz]

/-- C9 witness: a missing price for leg A leaves cash and the pair state
untouched. -/
theorem no_signal_frame_property_witness :
    (step_pair 5 2 0.5 none (some 1) 100 50 ⟨"A", "B", [], false, 0, 0⟩).1 = 50 ∧
    (step_pair 5 2 0.5 none (some 1) 100 50 ⟨"A", "B", [], false, 0, 0⟩).2.in_position =
      (⟨"A", "B", [], false, 0, 0⟩ : BTPairState).in_position ∧
    (step_pair 5 2 0.5 none (some 1) 100 50 ⟨"A", "B", [], false, 0, 0⟩).2.pos_a =
      (⟨"A", "B", [], false, 0, 0⟩ : BTPairState).pos_a ∧
    (step_pair 5 2 0.5 none (some 1) 100 50 ⟨"A", "B", [], false, 0, 0⟩).2.pos_b =
      (⟨"A", "B", [], false, 0, 0⟩ : BTPairState).pos_b :=
  no_signal_frame_property 5 2 0.5 100 50 none (some 1)
    ⟨"A", "B", [], false, 0, 0⟩ (Or.inl rfl)

/-! ### C10: ledger algebra -/

/-- C10: each ledger operation (open long spread, open short spread, close)
leaves `cash + pos_a·pa + pos_b·pb` — the pair's contribution to equity at the
step's prices — exactly unchanged, and for positive prices opening from flat
and then closing at the same prices restores cash exactly. -/
theorem ledger_open_close_identity (pa pb E C : ℝ) (st : BTPairState)
    (hpa : 0 < pa) (hpb : 0 < pb) :
    ((bt_enter_long_spread pa pb E C st).1 +
        (((bt_enter_long_spread pa pb E C st).2.pos_a : ℝ) * pa +
          ((bt_enter_long_spread pa pb E C st).2.pos_b : ℝ) * pb) =
      C + ((st.pos_a : ℝ) * pa + (st.pos_b : ℝ) * pb)) ∧
    ((bt_enter_short_spread pa pb E C st).1 +
        (((bt_enter_short_spread pa pb E C st).2.pos_a : ℝ) * pa +
          ((bt_enter_short_spread pa pb E C st).2.pos_b : ℝ) * pb) =
      C + ((st.pos_a : ℝ) * pa + (st.pos_b : ℝ) * pb)) ∧
    ((bt_close_positions pa pb C st).1 +
        (((bt_close_positions pa pb C st).2.pos_a : ℝ) * pa +
          ((bt_close_positions pa pb C st).2.pos_b : ℝ) * pb) =
      C + ((st.pos_a : ℝ) * pa + (st.pos_b : ℝ) * pb)) ∧
    (st.pos_a = 0 → st.pos_b = 0 →
      (bt_close_positions pa pb (bt_enter_long_spread pa pb E C st).1
        (bt_enter_long_spread pa pb E C st).2).1 = C ∧
      (bt_close_positions pa pb (bt_enter_short_spread pa pb E C st).1
        (bt_enter_short_spread pa pb E C st).2).1 = C) := by
  refine ⟨?_, ?_, ?_, ?_⟩
  · simp only [bt_enter_long_spread]
    push_cast
    ring
  · simp only [bt_enter_short_spread]
    push_cast
    ring
  · simp only [bt_close_positions]
    push_cast
    ring
  · intro h1 h2
    constructor
    · simp only [bt_enter_long_spread, bt_close_positions, h1, h2]
      push_cast
      ring
    · simp only [bt_enter_short_spread, bt_close_positions, h1, h2]
      push_cast
      ring

/-- C10 witness: prices `2` and `1`, equity `100`, cash `50`, flat pair:
opening long and closing restores cash `50`, and likewise for short. -/
theorem ledger_open_close_identity_witness :
    (0 : ℝ) < 2 ∧ (0 : ℝ) < 1 ∧
    (bt_close_positions 2 1 (bt_enter_long_spread 2 1 100 50
        ⟨"A", "B", [], false, 0, 0⟩).1
      (bt_enter_long_spread 2 1 100 50 ⟨"A", "B", [], false, 0, 0⟩).2).1 = 50 ∧
    (bt_close_positions 2 1 (bt_enter_short_spread 2 1 100 50
        ⟨"A", "B", [], false, 0, 0⟩).1
      (bt_enter_short_spread 2 1 100 50 ⟨"A", "B", [], false, 0, 0⟩).2).1 = 50 :=
  ⟨by norm_num, by norm_num,
    ((ledger_open_close_identity 2 1 100 50 ⟨"A", "B", [], false, 0, 0⟩
      (by norm_num) (by norm_num)).2.2.2 rfl rfl).1,
    ((ledger_open_close_identity 2 1 100 50 ⟨"A", "B", [], false, 0, 0⟩
      (by norm_num) (by norm_num)).2.2.2 rfl rfl).2⟩

/-! ### Thread (pair-loop) lemmas -/

lemma thread_snd_forall {α : Type} (f : ℝ → α → ℝ × α) (P Q : α → Prop)
    (hf : ∀ c x, P x → Q ((f c x).2)) :
    ∀ (xs : List α) (c : ℝ), (∀ x ∈ xs, P x) → ∀ y ∈ (thread f c xs).2, Q y := by
  intro xs
  induction xs with
  | nil =>
      intro c hP y hy
      simp [thread] at hy
  | cons a as ih =>
      intro c hP y hy
      simp only [thread] at hy
      rcases List.mem_cons.mp hy with hy | hy
      · subst hy
        exact hf c a (hP a (List.mem_cons_self a as))
      · exact ih (f c a).1 (fun x hx => hP x (List.mem_cons_of_mem a hx)) y hy

/-! ### C4: forced end-of-session liquidation -/

lemma close_pair_forced_flattens (prices : String → Option ℝ) (c : ℝ)
    (p : BTPairState)
    (hp : (p.in_position = false → p.pos_a = 0 ∧ p.pos_b = 0) ∧
      (p.in_position = true → ∃ pa pb, prices p.symbol_a = some pa ∧
        prices p.symbol_b = some pb ∧ pa ≠ 0 ∧ pb ≠ 0)) :
    (close_pair_forced prices c p).2.pos_a = 0 ∧
    (close_pair_forced prices c p).2.pos_b = 0 ∧
    (close_pair_forced prices c p).2.in_position = false := by
  obtain ⟨hflat, hopen⟩ := hp
  cases hip : p.in_position with
  | false =>
      simp [close_pair_forced, hip]
      exact hflat hip
  | true =>
      obtain ⟨pa, pb, hpa, hpb, ha0, hb0⟩ := hopen hip
      simp [close_pair_forced, hip, hpa, hpb, ha0, hb0, bt_close_positions]

lemma get_total_equity_of_flat (prices : String → Option ℝ) (st : BTState)
    (h : ∀ p ∈ st.pairs_state, p.pos_a = 0 ∧ p.pos_b = 0) :
    get_total_equity prices st = st.bt_cash := by
  unfold get_total_equity
  have hz : ∀ x ∈ st.pairs_state.map (fun p =>
      match prices p.symbol_a, prices p.symbol_b with
      | some pa, some pb =>
          if pa ≠ 0 ∧ pb ≠ 0 then (p.pos_a : ℝ) * pa + (p.pos_b : ℝ) * pb else 0
      | _, _ => 0), x = 0 := by
    intro x hx
    obtain ⟨p, hp, hpx⟩ := List.mem_map.mp hx
    obtain ⟨h1, h2⟩ := h p hp
    subst hpx
    cases prices p.symbol_a <;> cases prices p.symbol_b <;> simp [h1, h2]
  rw [List.sum_eq_zero hz, add_zero]

/-- C4: provided every pair satisfies the flat-implies-zero invariant and the
last snapshot has a present, truthy price for both legs of every pair still
OPEN, the end-of-session force-close pass leaves every pair with
`pos_a = pos_b = 0` and `in_position = false`, and the reported final equity
equals cash exactly. -/
theorem forced_liquidation_flattens (prices : String → Option ℝ) (st : BTState)
    (hinv : ∀ p ∈ st.pairs_state, pairInv p)
    (hpr : ∀ p ∈ st.pairs_state, p.in_position = true →
      ∃ pa pb, prices p.symbol_a = some pa ∧ prices p.symbol_b = some pb ∧
        pa ≠ 0 ∧ pb ≠ 0) :
    (∀ p ∈ (force_close_all prices st).pairs_state,
      p.pos_a = 0 ∧ p.pos_b = 0 ∧ p.in_position = false) ∧
    get_total_equity prices (force_close_all prices st) =
      (force_close_all prices st).bt_cash := by
  have hall : ∀ p ∈ (force_close_all prices st).pairs_state,
      p.pos_a = 0 ∧ p.pos_b = 0 ∧ p.in_position = false := by
    have hmem : (force_close_all prices st).pairs_state =
        (thread (close_pair_forced prices) st.bt_cash st.pairs_state).2 := rfl
    rw [hmem]
    exact thread_snd_forall (close_pair_forced prices)
      (fun p => (p.in_position = false → p.pos_a = 0 ∧ p.pos_b = 0) ∧
        (p.in_position = true → ∃ pa pb, prices p.symbol_a = some pa ∧
          prices p.symbol_b = some pb ∧ pa ≠ 0 ∧ pb ≠ 0))
      (fun p => p.pos_a = 0 ∧ p.pos_b = 0 ∧ p.in_position = false)
      (fun c p hp => close_pair_forced_flattens prices c p hp)
      st.pairs_state st.bt_cash
      (fun p hp => ⟨hinv p hp, hpr p hp⟩)
  exact ⟨hall,
    get_total_equity_of_flat prices _
      (fun p hp => ⟨(hall p hp).1, (hall p hp).2.1⟩)⟩

/-- C4 witness: a single open pair with positions `(5, −4)` closed at last
prices `2` and `1`; final equity equals cash exactly. -/
theorem forced_liquidation_flattens_witness :
    get_total_equity (fun s => if s = "A" then some 2 else if s = "B" then some 1 else none)
      (force_close_all
        (fun s => if s = "A" then some 2 else if s = "B" then some 1 else none)
        ⟨3, 2, 0.5, [⟨"A", "B", [], true, 5, -4⟩], 100, []⟩) =
    (force_close_all
      (fun s => if s = "A" then some 2 else if s = "B" then some 1 else none)
      ⟨3, 2, 0.5, [⟨"A", "B", [], true, 5, -4⟩], 100, []⟩).bt_cash := by
  refine (forced_liquidation_flattens _ _ ?_ ?_).2
  · intro p hp
    rw [List.mem_singleton] at hp
    subst hp
    intro hfalse
    simp at hfalse
  · intro p hp hip
    rw [List.mem_singleton] at hp
    subst hp
    exact ⟨2, 1, by simp, by simp, by norm_num, by norm_num⟩

/-! ### C5: the flat-implies-zero invariant on reachable states -/

lemma mk_bt_pair_state_fields (a b : String) (W : ℤ) (p : BTPairState)
    (h : mk_bt_pair_state a b W = Except.ok p) :
    p.in_position = false ∧ p.pos_a = 0 ∧ p.pos_b = 0 := by
  unfold mk_bt_pair_state at h
  by_cases hW : W < 0
  · rw [if_pos hW] at h
    simp at h
  · rw [if_neg hW] at h
    rw [Except.ok.injEq] at h
    subst h
    simp

lemma mk_pair_states_flat (pairs : List (String × String)) (W : ℤ)
    (ps : List BTPairState) (h : mk_pair_states pairs W = Except.ok ps) :
    ∀ p ∈ ps, p.in_position = false ∧ p.pos_a = 0 ∧ p.pos_b = 0 := by
  induction pairs generalizing ps with
  | nil =>
      unfold mk_pair_states at h
      rw [Except.ok.injEq] at h
      subst h
      intro p hp
      simp at hp
  | cons a rest ih =>
      unfold mk_pair_states at h
      split at h
      · simp at h
      · split at h
        · simp at h
        · rw [Except.ok.injEq] at h
          subst h
          intro p hp
          rcases List.mem_cons.mp hp with hp | hp
          · subst hp
            rename mk_bt_pair_state a.1 a.2 W = Except.ok _ => heq
            exact mk_bt_pair_state_fields a.1 a.2 W _ heq
          · rename mk_pair_states rest W = Except.ok _ => heq2
            exact ih _ heq2 p hp

lemma step_pair_pairInv (W : ℕ) (ze zx : ℝ) (pa? pb? : Option ℝ) (E c : ℝ)
    (p : BTPairState) (hp : pairInv p) :
    pairInv (step_pair W ze zx pa? pb? E c p).2 := by
  unfold pairInv at hp ⊢
  cases pa? with
  | none => simpa [step_pair] using hp
  | some pa =>
      cases pb? with
      | none => simpa [step_pair] using hp
      | some pb =>
          cases hz : (compute_zscore W (update_spread W p.spreads (pa - pb))
              (pa - pb)).1 with
          | none => simpa [step_pair, hz] using hp
          | some z =>
              cases hip : p.in_position with
              | false =>
                  by_cases h1 : z > ze
                  · simp [step_pair, hz, hip, h1, bt_enter_short_spread]
                  · by_cases h2 : z < -ze
                    · simp [step_pair, hz, hip, h1, h2, bt_enter_long_spread]
                    · simp [step_pair, hz, hip, h1, h2]
                      exact hp hip
              | true =>
                  by_cases hx : |z| < zx
                  · simp [step_pair, hz, hip, hx, bt_close_positions]
                  · simp [step_pair, hz, hip, hx]

lemma close_pair_forced_pairInv (prices : String → Option ℝ) (c : ℝ)
    (p : BTPairState) (hp : pairInv p) :
    pairInv (close_pair_forced prices c p).2 := by
  unfold pairInv at hp ⊢
  cases hip : p.in_position with
  | false =>
      simp [close_pair_forced, hip]
      exact hp hip
  | true =>
      cases ha : prices p.symbol_a with
      | none => simp [close_pair_forced, hip, ha]
      | some pa =>
          cases hb : prices p.symbol_b with
          | none => simp [close_pair_forced, hip, ha, hb]
          | some pb =>
              by_cases h0 : pa ≠ 0 ∧ pb ≠ 0
              · simp [close_pair_forced, hip, ha, hb, h0, bt_close_positions]
              · simp [close_pair_forced, hip, ha, hb, h0]

lemma step_backtest_pairInv (prices : String → Option ℝ) (ts : Option ℤ)
    (st : BTState) (h : ∀ p ∈ st.pairs_state, pairInv p) :
    ∀ p ∈ (step_backtest prices ts st).pairs_state, pairInv p := by
  have hmem : (step_backtest prices ts st).pairs_state =
      (thread (fun c p => step_pair st.lookback_window st.z_entry st.z_exit
        (prices p.symbol_a) (prices p.symbol_b) (get_total_equity prices st) c p)
        st.bt_cash st.pairs_state).2 := rfl
  rw [hmem]
  exact thread_snd_forall _ pairInv pairInv
    (fun c p hp => step_pair_pairInv _ _ _ _ _ _ c p hp)
    st.pairs_state st.bt_cash h

lemma force_close_all_pairInv (prices : String → Option ℝ)
    (st : BTState) (h : ∀ p ∈ st.pairs_state, pairInv p) :
    ∀ p ∈ (force_close_all prices st).pairs_state, pairInv p := by
  have hmem : (force_close_all prices st).pairs_state =
      (thread (close_pair_forced prices) st.bt_cash st.pairs_state).2 := rfl
  rw [hmem]
  exact thread_snd_forall _ pairInv pairInv
    (fun c p hp => close_pair_forced_pairInv prices c p hp)
    st.pairs_state st.bt_cash h

/-- C5: on every reachable backtest state — initial construction, any number
of signal steps, any number of forced liquidations — every pair with
`in_position = false` has `pos_a = pos_b = 0`. -/
theorem reachable_flat_implies_zero_positions (st : BTState) (h : Reachable st) :
    ∀ p ∈ st.pairs_state, pairInv p := by
  induction h with
  | init pairs W ze zx c0 st0 hmk =>
      unfold mkBTPairZScore at hmk
      cases hps : mk_pair_states pairs W with
      | error e =>
          rw [hps] at hmk
          simp [Except.map] at hmk
      | ok ps =>
          rw [hps] at hmk
          simp only [Except.map, Except.ok.injEq] at hmk
          subst hmk
          intro p hp
          have hf := mk_pair_states_flat pairs W ps hps p hp
          exact fun _ => ⟨hf.2.1, hf.2.2⟩
  | step prices ts st0 hr ih => exact step_backtest_pairInv prices ts st0 ih
  | forced prices st0 hr ih => exact force_close_all_pairInv prices st0 ih

/-- C5 witness: a freshly constructed engine with one pair is reachable and
its pair satisfies the invariant. -/
theorem reachable_flat_implies_zero_positions_witness :
    Reachable ⟨3, 2, 0.5, [⟨"GOOGL", "GOOG", [], false, 0, 0⟩], 100000, []⟩ ∧
    pairInv (⟨"GOOGL", "GOOG", [], false, 0, 0⟩ : BTPairState) := by
  have hre : Reachable
      (⟨3, 2, 0.5, [⟨"GOOGL", "GOOG", [], false, 0, 0⟩], 100000, []⟩ : BTState) :=
    Reachable.init [("GOOGL", "GOOG")] 3 2 0.5 100000 _ rfl
  exact ⟨hre, reachable_flat_implies_zero_positions _ hre
    ⟨"GOOGL", "GOOG", [], false, 0, 0⟩ (List.mem_singleton.mpr rfl)⟩

end PairTrading
